import Mathlib

set_option autoImplicit false

/-!
Verification of the geometry-resolution core of the MCNP→OpenMC adapter
(`src/openmc_mcnp_adapter/openmc_conversion.py`).  Regions, cells, the
cell-complement dependency resolution, the lattice constructor, the plane
builder, the vacuum-boundary pass and the surface-equivalence closure are
embedded as executable Lean definitions; the numbered theorems settle the
spec claims about them.
-/

namespace McnpAdapter

/-! ## Region model

An `MRegion` is the shallow embedding of an `openmc` region tree as used by
`openmc_conversion.py`: halfspaces `(surface id, side)` at the leaves and
n-ary intersection/union plus a complement wrapper (`openmc.Intersection`,
`openmc.Union`, `openmc.Complement` hold lists of operands / one operand). -/

inductive MRegion where
  | halfspace : Nat → Bool → MRegion
  | inter : List MRegion → MRegion
  | uni : List MRegion → MRegion
  | compl : MRegion → MRegion
deriving Repr

/-- Embedding of `openmc`'s `~` operator (`Region.__invert__`): a halfspace
flips its side, every other region is wrapped in a `Complement` node.  Used by
the second resolution pass (`r = ~other_cell['_region']`, line 547). -/
def invert : MRegion → MRegion
  | .halfspace sid pos => .halfspace sid (!pos)
  | r => .compl r

/-! ## Raw cell-region expressions

`CExpr` embeds the textual region expression of an MCNP cell record after
tokenisation: signed surface references, blank-intersections, `:`-unions,
`#(...)` complements of sub-expressions and `#N` cell complements (the form
matched by `_COMPLEMENT_RE`). -/

inductive CExpr where
  | hs : Nat → Bool → CExpr
  | inter : List CExpr → CExpr
  | uni : List CExpr → CExpr
  | compGroup : CExpr → CExpr
  | compCell : Nat → CExpr
deriving Repr

mutual

/-- Whether a region expression contains a cell-complement reference; embeds
`_COMPLEMENT_RE.search(c['region'])` being a match (line 460). -/
def hasCompCell : CExpr → Bool
  | .hs _ _ => false
  | .inter l => hasCompCellList l
  | .uni l => hasCompCellList l
  | .compGroup e => hasCompCell e
  | .compCell _ => true

def hasCompCellList : List CExpr → Bool
  | [] => false
  | e :: rest => hasCompCell e || hasCompCellList rest

end

mutual

/-- The cell ids referenced by `#N` cell complements, in textual order;
embeds `_COMPLEMENT_RE.findall(region)` (lines 526, 542). -/
def compRefs : CExpr → List Nat
  | .hs _ _ => []
  | .inter l => compRefsList l
  | .uni l => compRefsList l
  | .compGroup e => compRefs e
  | .compCell n => [n]

def compRefsList : List CExpr → List Nat
  | [] => []
  | e :: rest => compRefs e ++ compRefsList rest

end

/-- Conversion failures of the embedded pipeline.  `recursionLimit` stands
for the Python `RecursionError` raised when the interpreter's recursion
limit is exhausted; `nestedComplement` for the
`NotImplementedError('Cannot handle nested cell-complements …')` of lines
549-551; `keyError` for an uncaught `KeyError`; `typeError` for an uncaught
`TypeError`; `trclAssert` for the `assert 'trcl' not in c['parameters']` of
line 563; `parseFail` for the `ValueError('Could not parse region …')`. -/
inductive ConvErr where
  | parseFail
  | recursionLimit
  | keyError
  | nestedComplement
  | typeError
  | trclAssert
  | notImplemented
  | valueError
  | assertFail
deriving DecidableEq, Repr

mutual

/-- Parse a region expression against already-resolved cell regions; embeds
`openmc.Region.from_expression` applied after the textual substitution of
each `#N` by `str(~cell_N._region)` (lines 544-557).  A remaining `#N` whose
cell has no `_region` yet is the `KeyError` → nested-complement error. -/
def interpWith (res : Nat → Option MRegion) : CExpr → Except ConvErr MRegion
  | .hs sid pos => .ok (.halfspace sid pos)
  | .inter l =>
    match interpList res l with
    | .error e => .error e
    | .ok rl => .ok (.inter rl)
  | .uni l =>
    match interpList res l with
    | .error e => .error e
    | .ok rl => .ok (.uni rl)
  | .compGroup e =>
    match interpWith res e with
    | .error er => .error er
    | .ok r => .ok (.compl r)
  | .compCell n =>
    match res n with
    | some r => .ok (invert r)
    | none => .error .nestedComplement

def interpList (res : Nat → Option MRegion) : List CExpr → Except ConvErr (List MRegion)
  | [] => .ok []
  | e :: rest =>
    match interpWith res e with
    | .error er => .error er
    | .ok r =>
      match interpList res rest with
      | .error er => .error er
      | .ok rl => .ok (r :: rl)

end

/-! ## Cell records

`MCellRec` embeds the parsed MCNP cell record (dict) consumed by
`get_openmc_universes`: id, raw region expression and the parameter map
entries the resolver looks at.  The payload of a `trcl` transform is
abstracted (its effect on a region is an external `openmc` operation, passed
to the pipeline as a function). -/

structure MCellRec where
  id : Nat
  region : CExpr
  u : Option Int := none
  lat : Bool := false
  imp : Option ℚ := none
  material : Int := 0
  trcl : Bool := false
deriving Repr

/-- Embeds `cell_by_id = {c['id']: c for c in cells}` (line 435), assuming the
well-formedness condition that cell ids are unique. -/
def byIdOf (cells : List MCellRec) : Nat → Option MCellRec :=
  fun cid => cells.find? (fun c => c.id == cid)

/-- Association-list update with Python-dict semantics: an existing key keeps
its position, a new key is appended. -/
def alset {κ α : Type} [DecidableEq κ] : List (κ × α) → κ → α → List (κ × α)
  | [], k, v => [(k, v)]
  | (k2, v2) :: rest, k, v =>
    if k2 = k then (k2, v) :: rest else (k2, v2) :: alset rest k v

/-- Association-list lookup (Python `dict.get`). -/
def alget {κ α : Type} [DecidableEq κ] : List (κ × α) → κ → Option α
  | [], _ => none
  | (k2, v) :: rest, k => if k2 = k then some v else alget rest k

/-- First resolution pass (lines 458-521): every cell whose expression has no
cell complement gets its `_region` parsed directly, and a cell-local `trcl`
transform (an external `openmc` translate/rotate, abstracted as `trclSem`) is
applied to the resolved region. -/
def resolveNoComp (trclSem : MRegion → MRegion) :
    List MCellRec → List (Nat × MRegion) → Except ConvErr (List (Nat × MRegion))
  | [], m => .ok m
  | c :: rest, m =>
    match interpWith (fun _ => none) c.region with
    | .error _ => .error .parseFail
    | .ok r =>
      resolveNoComp trclSem rest (alset m c.id (if c.trcl then trclSem r else r))

/-- One level of the dependency-ordering DFS: the loop
`for _, other_id in matches: …` inside `add_to_ordered` (lines 527-530),
with the recursive call abstracted as `rec`. -/
def atoFoldAux (byId : Nat → Option MCellRec) (hasComp : List Nat)
    (rec : Nat → List Nat → Except ConvErr (List Nat)) :
    List Nat → List Nat → Except ConvErr (List Nat)
  | [], acc => .ok acc
  | oid :: rest, acc =>
    match byId oid with
    | none => .error .keyError
    | some _ =>
      if oid ∈ hasComp then
        match rec oid acc with
        | .error e => .error e
        | .ok acc2 => atoFoldAux byId hasComp rec rest acc2
      else atoFoldAux byId hasComp rec rest acc

/-- Embeds `add_to_ordered` (lines 524-532).  The Python function recurses
with no visited-set and no cycle check, so each nested invocation consumes one
stack frame; the `fuel` argument models the interpreter's recursion limit and
running out of it is the `RecursionError`. -/
def addToOrdered (byId : Nat → Option MCellRec) (hasComp : List Nat) :
    Nat → Nat → List Nat → Except ConvErr (List Nat)
  | 0, _, _ => .error .recursionLimit
  | fuel + 1, cid, acc =>
    match byId cid with
    | none => .error .keyError
    | some c =>
      match atoFoldAux byId hasComp (addToOrdered byId hasComp fuel) (compRefs c.region) acc with
      | .error e => .error e
      | .ok acc2 => .ok (if cid ∈ acc2 then acc2 else acc2 ++ [cid])

/-- Embeds the loop `for c in has_cell_complement: add_to_ordered(c)`
(lines 533-534). -/
def buildOrderAux (byId : Nat → Option MCellRec) (hasComp : List Nat) (fuel : Nat) :
    List Nat → List Nat → Except ConvErr (List Nat)
  | [], acc => .ok acc
  | cid :: rest, acc =>
    match addToOrdered byId hasComp fuel cid acc with
    | .error e => .error e
    | .ok acc2 => buildOrderAux byId hasComp fuel rest acc2

def buildOrder (byId : Nat → Option MCellRec) (hasComp : List Nat) (fuel : Nat) :
    Except ConvErr (List Nat) :=
  buildOrderAux byId hasComp fuel hasComp []

/-- Second resolution pass (lines 539-563): cells are processed in the
dependency order, each `#N` replaced by the string form of
`~cell_N._region` and the result re-parsed; a `trcl` on such a cell trips
the `assert` of line 563. -/
def resolveCompCells (byId : Nat → Option MCellRec) :
    List Nat → List (Nat × MRegion) → Except ConvErr (List (Nat × MRegion))
  | [], m => .ok m
  | cid :: rest, m =>
    match byId cid with
    | none => .error .keyError
    | some c =>
      match interpWith (fun oid => alget m oid) c.region with
      | .error e => .error e
      | .ok r =>
        if c.trcl then .error .trclAssert
        else resolveCompCells byId rest (alset m c.id r)

/-- The whole region-resolution stage of `get_openmc_universes`
(lines 456-563): split the cells on the presence of a cell complement,
resolve the complement-free ones, order the rest by dependency DFS, then
substitute-and-parse in that order.  Returns the map cell id → `_region`. -/
def resolveRegions (trclSem : MRegion → MRegion) (cells : List MCellRec) (fuel : Nat) :
    Except ConvErr (List (Nat × MRegion)) :=
  match resolveNoComp trclSem (cells.filter (fun c => !hasCompCell c.region)) [] with
  | .error e => .error e
  | .ok m0 =>
    match buildOrder (byIdOf cells)
        ((cells.filter (fun c => hasCompCell c.region)).map (fun c => c.id)) fuel with
    | .error e => .error e
    | .ok order =>
      resolveCompCells (byIdOf cells) order m0

/-! ## Ordering invariant of the dependency DFS (claims C1, C2)

`GoodOrder` states the property the spec requires of the processing order:
every cell-complement reference of an ordered cell that points at another
complement-carrying cell points at a cell ordered strictly earlier, so that
its fully resolved region (transforms included, since pass one applies them
before pass two starts) is available when the substitution happens. -/

def GoodAt (byId : Nat → Option MCellRec) (hasComp : List Nat)
    (pre : List Nat) (cid : Nat) : Prop :=
  ∀ c oid, byId cid = some c → oid ∈ compRefs c.region → oid ∈ hasComp → oid ∈ pre

def GoodOrder (byId : Nat → Option MCellRec) (hasComp : List Nat)
    (order : List Nat) : Prop :=
  ∀ i, i < order.length → GoodAt byId hasComp (order.take i) (order.getD i 0)

theorem goodOrder_nil (byId : Nat → Option MCellRec) (hasComp : List Nat) :
    GoodOrder byId hasComp [] := by
  intro i hi
  exact absurd hi (by simp)

theorem goodOrder_append (byId : Nat → Option MCellRec) (hasComp : List Nat)
    (l : List Nat) (cid : Nat) (hg : GoodOrder byId hasComp l)
    (hrefs : GoodAt byId hasComp l cid) :
    GoodOrder byId hasComp (l ++ [cid]) := by
  intro i hi
  rcases Nat.lt_or_ge i l.length with hlt | hge
  · rw [List.getD_append _ _ _ _ hlt, List.take_append_of_le_length (Nat.le_of_lt hlt)]
    exact hg i hlt
  · have hlen : i = l.length := by
      simp only [List.length_append, List.length_singleton] at hi
      omega
    subst hlen
    rw [List.getD_append_right _ _ _ _ (le_refl _),
      List.take_append_of_le_length (le_refl _), Nat.sub_self, List.take_length]
    simpa using hrefs

/-- Specification satisfied by every successful call of `add_to_ordered`:
the accumulated list only grows, the processed cell ends up in it, and the
ordering invariant is preserved. -/
def AtoSpec (byId : Nat → Option MCellRec) (hasComp : List Nat)
    (rec : Nat → List Nat → Except ConvErr (List Nat)) : Prop :=
  ∀ cid acc acc2, rec cid acc = .ok acc2 →
    acc.IsPrefix acc2 ∧ cid ∈ acc2 ∧
      (GoodOrder byId hasComp acc → GoodOrder byId hasComp acc2)

theorem atoFoldAux_spec (byId : Nat → Option MCellRec) (hasComp : List Nat)
    (rec : Nat → List Nat → Except ConvErr (List Nat))
    (hrec : AtoSpec byId hasComp rec) :
    ∀ l acc acc2, atoFoldAux byId hasComp rec l acc = .ok acc2 →
      acc.IsPrefix acc2 ∧ (∀ oid ∈ l, oid ∈ hasComp → oid ∈ acc2) ∧
        (GoodOrder byId hasComp acc → GoodOrder byId hasComp acc2)
  | [], acc, acc2 => by
    intro h
    simp only [atoFoldAux] at h
    cases h
    exact ⟨List.prefix_refl _, by simp, fun g => g⟩
  | oid :: rest, acc, acc2 => by
    intro h
    simp only [atoFoldAux] at h
    cases hb : byId oid with
    | none => rw [hb] at h; exact absurd h (by simp)
    | some c =>
      rw [hb] at h
      by_cases hmem : oid ∈ hasComp
      · rw [if_pos hmem] at h
        cases hr : rec oid acc with
        | error e => rw [hr] at h; exact absurd h (by simp)
        | ok acc1 =>
          rw [hr] at h
          obtain ⟨hp1, hm1, hg1⟩ := hrec oid acc acc1 hr
          obtain ⟨hp2, hm2, hg2⟩ := atoFoldAux_spec byId hasComp rec hrec rest acc1 acc2 h
          refine ⟨hp1.trans hp2, ?_, fun g => hg2 (hg1 g)⟩
          intro x hx hxc
          rcases List.mem_cons.mp hx with rfl | hxr
          · exact hp2.subset hm1
          · exact hm2 x hxr hxc
      · rw [if_neg hmem] at h
        obtain ⟨hp2, hm2, hg2⟩ := atoFoldAux_spec byId hasComp rec hrec rest acc acc2 h
        refine ⟨hp2, ?_, hg2⟩
        intro x hx hxc
        rcases List.mem_cons.mp hx with rfl | hxr
        · exact absurd hxc hmem
        · exact hm2 x hxr hxc

theorem addToOrdered_spec (byId : Nat → Option MCellRec) (hasComp : List Nat) :
    ∀ fuel, AtoSpec byId hasComp (addToOrdered byId hasComp fuel) := by
  intro fuel
  induction fuel with
  | zero =>
    intro cid acc acc2 h
    exact absurd h (by simp [addToOrdered])
  | succ fuel ih =>
    intro cid acc acc2 h
    simp only [addToOrdered] at h
    cases hb : byId cid with
    | none => simp only [hb] at h; exact absurd h (by simp)
    | some c =>
      simp only [hb] at h
      cases hfold : atoFoldAux byId hasComp (addToOrdered byId hasComp fuel)
          (compRefs c.region) acc with
      | error e => simp only [hfold] at h; exact absurd h (by simp)
      | ok acc1 =>
        simp only [hfold, Except.ok.injEq] at h
        obtain ⟨hp, hm, hg⟩ :=
          atoFoldAux_spec byId hasComp _ ih (compRefs c.region) acc acc1 hfold
        have hrefs : GoodAt byId hasComp acc1 cid := by
          intro c2 oid hb2 href hhc
          rw [hb] at hb2
          cases hb2
          exact hm oid href hhc
        subst h
        by_cases hcin : cid ∈ acc1
        · rw [if_pos hcin]
          exact ⟨hp, hcin, hg⟩
        · rw [if_neg hcin]
          exact ⟨hp.trans (List.prefix_append _ _), by simp,
            fun g => goodOrder_append byId hasComp acc1 cid (hg g) hrefs⟩

theorem buildOrderAux_good (byId : Nat → Option MCellRec) (hasComp : List Nat) (fuel : Nat) :
    ∀ l acc order, GoodOrder byId hasComp acc →
      buildOrderAux byId hasComp fuel l acc = .ok order →
        GoodOrder byId hasComp order
  | [], acc, order => by
    intro hg h
    simp only [buildOrderAux] at h
    cases h
    exact hg
  | cid :: rest, acc, order => by
    intro hg h
    simp only [buildOrderAux] at h
    cases ha : addToOrdered byId hasComp fuel cid acc with
    | error e => rw [ha] at h; exact absurd h (by simp)
    | ok acc2 =>
      rw [ha] at h
      exact buildOrderAux_good byId hasComp fuel rest acc2 order
        ((addToOrdered_spec byId hasComp fuel cid acc acc2 ha).2.2 hg) h

/-! ## Concrete cells for the complement-ordering scenarios -/

/-- Cell A of the spec scenario: region `-1`. -/
def cellA : MCellRec := { id := 10, region := .hs 1 false }

/-- Cell B of the spec scenario: region `#A`. -/
def cellB : MCellRec := { id := 20, region := .compCell 10 }

/-- Cell C of the spec scenario: region `#B`. -/
def cellC : MCellRec := { id := 30, region := .compCell 20 }

def cellsABC : List MCellRec := [cellA, cellB, cellC]

/-- A cell whose region complements the cell itself: `#40` on cell 40. -/
def cellSelf : MCellRec := { id := 40, region := .compCell 40 }

/-- C1: for cells A (region `-1`), B (region `#A`), C (region `#B`), region
resolution succeeds and C's resolved region equals A's original region (the
double complement cancels); and in general every successful dependency
ordering produced by `add_to_ordered` places any complement-referenced,
complement-carrying cell strictly before the referencing cell, so each `#N`
is substituted only after cell N's own region — local transforms included,
since pass one applies them before pass two begins — is fully resolved. -/
theorem C1_complement_resolution :
    (∃ m, resolveRegions id cellsABC 1000 = .ok m ∧
      alget m 30 = some (MRegion.halfspace 1 false) ∧
      alget m 30 = alget m 10) ∧
    (∀ byId hasComp fuel order, buildOrder byId hasComp fuel = .ok order →
      GoodOrder byId hasComp order) := by
  constructor
  · exact ⟨_, rfl, rfl, rfl⟩
  · intro byId hasComp fuel order h
    exact buildOrderAux_good byId hasComp fuel hasComp [] order
      (goodOrder_nil byId hasComp) h

set_option maxRecDepth 8192 in
/-- Witness for C1: the scenario cells produce the dependency order
`[20, 30]` (B before C), and the general ordering invariant applies to it. -/
theorem C1_complement_resolution_witness :
    buildOrder (byIdOf cellsABC) [20, 30] 1000 = .ok [20, 30] ∧
    GoodOrder (byIdOf cellsABC) [20, 30] [20, 30] :=
  ⟨rfl, C1_complement_resolution.2 (byIdOf cellsABC) [20, 30] 1000 [20, 30] rfl⟩

/-- Helper for C2: on the direct self-complement cell, `add_to_ordered`
re-enters itself at every recursion budget, so the ordering step always ends
in the recursion-limit error and never in the nested-complement error. -/
theorem addToOrdered_selfCycle :
    ∀ fuel acc, addToOrdered (byIdOf [cellSelf]) [40] fuel 40 acc =
      .error .recursionLimit := by
  intro fuel
  induction fuel with
  | zero => intro acc; rfl
  | succ fuel ih =>
    intro acc
    have h1 : addToOrdered (byIdOf [cellSelf]) [40] (fuel + 1) 40 acc =
        match atoFoldAux (byIdOf [cellSelf]) [40]
            (addToOrdered (byIdOf [cellSelf]) [40] fuel) [40] acc with
        | .error e => .error e
        | .ok acc2 => .ok (if 40 ∈ acc2 then acc2 else acc2 ++ [40]) := rfl
    have h2 : atoFoldAux (byIdOf [cellSelf]) [40]
        (addToOrdered (byIdOf [cellSelf]) [40] fuel) [40] acc =
        match addToOrdered (byIdOf [cellSelf]) [40] fuel 40 acc with
        | .error e => .error e
        | .ok acc2 => atoFoldAux (byIdOf [cellSelf]) [40]
            (addToOrdered (byIdOf [cellSelf]) [40] fuel) [] acc2 := rfl
    rw [h1, h2, ih acc]

/-- Helper for C2: at any recursion budget, resolving the self-complement
cell ends in the recursion-limit error. -/
theorem resolveRegions_selfCycle :
    ∀ fuel, resolveRegions id [cellSelf] fuel = .error .recursionLimit := by
  intro fuel
  have h1 : resolveRegions id [cellSelf] fuel =
      match buildOrder (byIdOf [cellSelf]) [40] fuel with
      | .error e => .error e
      | .ok order => resolveCompCells (byIdOf [cellSelf]) order [] := rfl
  have h2 : buildOrder (byIdOf [cellSelf]) [40] fuel =
      match addToOrdered (byIdOf [cellSelf]) [40] fuel 40 [] with
      | .error e => .error e
      | .ok acc2 => buildOrderAux (byIdOf [cellSelf]) [40] fuel [] acc2 := rfl
  rw [h1, h2, addToOrdered_selfCycle fuel []]

/-- C2 counterexample: a cell that complements itself makes the whole
resolution abort with the recursion-limit error (the Python
`RecursionError`), not with the `UnresolvableReference` / nested-complement
error the claim names.  The fuel 1000 matches CPython's default recursion
limit. -/
theorem C2_counterexample :
    resolveRegions id [cellSelf] 1000 = .error .recursionLimit ∧
    ConvErr.recursionLimit ≠ ConvErr.nestedComplement :=
  ⟨resolveRegions_selfCycle 1000, by decide⟩

/-- A set `S` of cell ids on a cell-complement cycle: every member
references (via `#N`) some complement-carrying member of `S`. -/
def OnCycle (byId : Nat → Option MCellRec) (hasComp S : List Nat) : Prop :=
  ∀ cid ∈ S, ∃ c oid, byId cid = some c ∧ oid ∈ compRefs c.region ∧
    oid ∈ hasComp ∧ oid ∈ S

/-- Helper for C2: the inner reference loop of `add_to_ordered` can never
return successfully once one of the processed references always fails. -/
theorem atoFoldAux_cycle_err (byId : Nat → Option MCellRec) (hasComp : List Nat)
    (rec : Nat → List Nat → Except ConvErr (List Nat)) (oid : Nat)
    (hbad : ∀ acc res, rec oid acc ≠ .ok res) (hoidc : oid ∈ hasComp) :
    ∀ l, oid ∈ l → ∀ acc res, atoFoldAux byId hasComp rec l acc ≠ .ok res
  | [], hmem => by simp at hmem
  | x :: rest, hmem => by
    intro acc res hok
    simp only [atoFoldAux] at hok
    cases hb : byId x with
    | none => simp only [hb] at hok; exact absurd hok (by simp)
    | some c =>
      simp only [hb] at hok
      rcases List.mem_cons.mp hmem with heq | hrest
      · subst heq
        rw [if_pos hoidc] at hok
        cases hr : rec oid acc with
        | error e => simp only [hr] at hok; exact absurd hok (by simp)
        | ok acc2 => exact hbad acc acc2 hr
      · by_cases hxc : x ∈ hasComp
        · rw [if_pos hxc] at hok
          cases hr : rec x acc with
          | error e => simp only [hr] at hok; exact absurd hok (by simp)
          | ok acc2 =>
            simp only [hr] at hok
            exact atoFoldAux_cycle_err byId hasComp rec oid hbad hoidc rest
              hrest acc2 res hok
        · rw [if_neg hxc] at hok
          exact atoFoldAux_cycle_err byId hasComp rec oid hbad hoidc rest
            hrest acc res hok

/-- C2 (amended): when the cell-complement references form a cycle, the
dependency-ordering recursion of `add_to_ordered` never terminates
successfully at any recursion budget — in CPython the conversion aborts with
a `RecursionError` once the interpreter limit is reached — and, as the
concrete self-complement cell shows, the resulting fatal error is the
recursion-limit one at every budget, never the nested-complement
(`UnresolvableReference`) error, and no resolved region is produced. -/
theorem C2_cycle_behavior :
    (∀ byId hasComp S, OnCycle byId hasComp S →
      ∀ fuel cid, cid ∈ S → ∀ acc res,
        addToOrdered byId hasComp fuel cid acc ≠ .ok res) ∧
    (∀ fuel, resolveRegions id [cellSelf] fuel = .error .recursionLimit) := by
  constructor
  · intro byId hasComp S hcyc fuel
    induction fuel with
    | zero =>
      intro cid _ acc res h
      exact absurd h (by simp [addToOrdered])
    | succ fuel ih =>
      intro cid hcid acc res h
      obtain ⟨c, oid, hb, href, hhc, hoidS⟩ := hcyc cid hcid
      simp only [addToOrdered, hb] at h
      cases hfold : atoFoldAux byId hasComp (addToOrdered byId hasComp fuel)
          (compRefs c.region) acc with
      | error e => simp only [hfold] at h; exact absurd h (by simp)
      | ok acc1 =>
        exact atoFoldAux_cycle_err byId hasComp _ oid
          (fun a r => ih oid hoidS a r) hhc (compRefs c.region) href acc acc1 hfold
  · exact resolveRegions_selfCycle

/-- Witness for C2: the single self-complementing cell is a cycle, and the
ordering on it cannot succeed. -/
theorem C2_cycle_behavior_witness :
    OnCycle (byIdOf [cellSelf]) [40] [40] ∧
    addToOrdered (byIdOf [cellSelf]) [40] 5 40 [] ≠ .ok [40] := by
  have hcyc : OnCycle (byIdOf [cellSelf]) [40] [40] := by
    intro cid hcid
    have hc40 : cid = 40 := by simpa using hcid
    subst hc40
    exact ⟨cellSelf, 40, rfl, by decide, by decide, by decide⟩
  exact ⟨hcyc, C2_cycle_behavior.1 (byIdOf [cellSelf]) [40] [40] hcyc 5 40
    (by decide) [] [40]⟩

/-! ## Claim C5: general plane built from three points

Machine floats of the source are embedded as exact rationals; the sense
normalisation only compares against zero and negates, so it is exact. -/

/-- Coefficients of an `openmc.Plane` with equation `a x + b y + c z = d`. -/
structure PlaneCoeffs where
  a : ℚ
  b : ℚ
  c : ℚ
  d : ℚ
deriving DecidableEq, Repr

structure Pt3 where
  x : ℚ
  y : ℚ
  z : ℚ
deriving DecidableEq, Repr

/-- Embeds `openmc.Plane.from_points` as called on line 155: the normal is
the cross product `(p2 - p1) × (p3 - p1)` and `d = n · p1`. -/
def planeFromPoints (p1 p2 p3 : Pt3) : PlaneCoeffs :=
  let ux := p2.x - p1.x
  let uy := p2.y - p1.y
  let uz := p2.z - p1.z
  let vx := p3.x - p1.x
  let vy := p3.y - p1.y
  let vz := p3.z - p1.z
  let nx := uy * vz - uz * vy
  let ny := uz * vx - ux * vz
  let nz := ux * vy - uy * vx
  { a := nx, b := ny, c := nz, d := nx * p1.x + ny * p1.y + nz * p1.z }

/-- Embeds the `flip_sense` helper of lines 158-162. -/
def flipSense (q : PlaneCoeffs) : PlaneCoeffs :=
  { a := -q.a, b := -q.b, c := -q.c, d := -q.d }

/-- Embeds the sense enforcement of lines 164-178: test `d, c, b, a` in that
order, flip all four coefficients if the first nonzero one is negative;
`none` models the `ValueError` raised when all four are zero. -/
def mcnpSense (q : PlaneCoeffs) : Option PlaneCoeffs :=
  if q.d ≠ 0 then (if q.d < 0 then some (flipSense q) else some q)
  else if q.c ≠ 0 then (if q.c < 0 then some (flipSense q) else some q)
  else if q.b ≠ 0 then (if q.b < 0 then some (flipSense q) else some q)
  else if q.a ≠ 0 then (if q.a < 0 then some (flipSense q) else some q)
  else none

/-- The whole 9-coefficient `p` branch (lines 151-178). -/
def buildPlaneP (p1 p2 p3 : Pt3) : Option PlaneCoeffs :=
  mcnpSense (planeFromPoints p1 p2 p3)

/-- The first coefficient tested nonzero, in the priority order d, c, b, a. -/
def firstSense (q : PlaneCoeffs) : ℚ :=
  if q.d ≠ 0 then q.d else if q.c ≠ 0 then q.c else if q.b ≠ 0 then q.b else q.a

/-- C5: for any three non-collinear points (nonzero cross-product normal),
the plane built by the surface builder succeeds and its first nonzero
coefficient, tested in the order d, c, b, a, is positive; the result is the
raw `from_points` plane or its negation, the negation being taken exactly
when the raw first tested coefficient is negative. -/
theorem C5_plane_sense (p1 p2 p3 : Pt3)
    (hnc : (planeFromPoints p1 p2 p3).a ≠ 0 ∨ (planeFromPoints p1 p2 p3).b ≠ 0 ∨
      (planeFromPoints p1 p2 p3).c ≠ 0) :
    ∃ q, buildPlaneP p1 p2 p3 = some q ∧ 0 < firstSense q ∧
      (q = planeFromPoints p1 p2 p3 ∨ q = flipSense (planeFromPoints p1 p2 p3)) ∧
      (firstSense (planeFromPoints p1 p2 p3) < 0 →
        q = flipSense (planeFromPoints p1 p2 p3)) := by
  set r := planeFromPoints p1 p2 p3 with hr
  clear_value r
  by_cases hd : r.d = 0
  · by_cases hc : r.c = 0
    · by_cases hb : r.b = 0
      · have ha : r.a ≠ 0 := by tauto
        have h0 : firstSense r = r.a := by simp [firstSense, hd, hc, hb]
        by_cases hneg : r.a < 0
        · refine ⟨flipSense r,
            by simp [buildPlaneP, mcnpSense, ← hr, hd, hc, hb, ha, hneg],
            ?_, Or.inr rfl, fun _ => rfl⟩
          simp [firstSense, flipSense, hd, hc, hb, neg_pos, hneg]
        · refine ⟨r,
            by simp [buildPlaneP, mcnpSense, ← hr, hd, hc, hb, ha, hneg],
            ?_, Or.inl rfl, fun habs => ?_⟩
          · rw [h0]
            exact lt_of_le_of_ne (not_lt.mp hneg) (Ne.symm ha)
          · rw [h0] at habs
            exact absurd habs hneg
      · have h0 : firstSense r = r.b := by simp [firstSense, hd, hc, hb]
        by_cases hneg : r.b < 0
        · refine ⟨flipSense r,
            by simp [buildPlaneP, mcnpSense, ← hr, hd, hc, hb, hneg],
            ?_, Or.inr rfl, fun _ => rfl⟩
          simp [firstSense, flipSense, hd, hc, hb, neg_pos, hneg]
        · refine ⟨r,
            by simp [buildPlaneP, mcnpSense, ← hr, hd, hc, hb, hneg],
            ?_, Or.inl rfl, fun habs => ?_⟩
          · rw [h0]
            exact lt_of_le_of_ne (not_lt.mp hneg) (Ne.symm hb)
          · rw [h0] at habs
            exact absurd habs hneg
    · have h0 : firstSense r = r.c := by simp [firstSense, hd, hc]
      by_cases hneg : r.c < 0
      · refine ⟨flipSense r,
          by simp [buildPlaneP, mcnpSense, ← hr, hd, hc, hneg],
          ?_, Or.inr rfl, fun _ => rfl⟩
        simp [firstSense, flipSense, hd, hc, neg_pos, hneg]
      · refine ⟨r,
          by simp [buildPlaneP, mcnpSense, ← hr, hd, hc, hneg],
          ?_, Or.inl rfl, fun habs => ?_⟩
        · rw [h0]
          exact lt_of_le_of_ne (not_lt.mp hneg) (Ne.symm hc)
        · rw [h0] at habs
          exact absurd habs hneg
  · have h0 : firstSense r = r.d := by simp [firstSense, hd]
    by_cases hneg : r.d < 0
    · refine ⟨flipSense r,
        by simp [buildPlaneP, mcnpSense, ← hr, hd, hneg],
        ?_, Or.inr rfl, fun _ => rfl⟩
      simp [firstSense, flipSense, hd, neg_pos, hneg]
    · refine ⟨r,
        by simp [buildPlaneP, mcnpSense, ← hr, hd, hneg],
        ?_, Or.inl rfl, fun habs => ?_⟩
      · rw [h0]
        exact lt_of_le_of_ne (not_lt.mp hneg) (Ne.symm hd)
      · rw [h0] at habs
        exact absurd habs hneg

def ptA : Pt3 := { x := 0, y := 0, z := -1 }

def ptB : Pt3 := { x := 1, y := 0, z := -1 }

def ptC : Pt3 := { x := 0, y := 1, z := -1 }

/-- Witness for C5: the plane through `(0,0,-1)`, `(1,0,-1)`, `(0,1,-1)` has
raw coefficients `(0,0,1,-1)`; the builder flips it to `(0,0,-1,1)`, whose
first tested coefficient `d = 1` is positive. -/
theorem C5_plane_sense_witness :
    ((planeFromPoints ptA ptB ptC).a ≠ 0 ∨ (planeFromPoints ptA ptB ptC).b ≠ 0 ∨
      (planeFromPoints ptA ptB ptC).c ≠ 0) ∧
    (∃ q, buildPlaneP ptA ptB ptC = some q ∧ 0 < firstSense q ∧
      (q = planeFromPoints ptA ptB ptC ∨ q = flipSense (planeFromPoints ptA ptB ptC)) ∧
      (firstSense (planeFromPoints ptA ptB ptC) < 0 →
        q = flipSense (planeFromPoints ptA ptB ptC))) :=
  ⟨by norm_num [planeFromPoints, ptA, ptB, ptC],
    C5_plane_sense ptA ptB ptC (by norm_num [planeFromPoints, ptA, ptB, ptC])⟩

/-! ## Claim C8: `x`, `y`, `z` surfaces with four coefficients -/

/-- Result of building an `x`/`y`/`z` surface record with four coefficients
(lines 264-287): an axis-aligned plane, an axis-aligned cylinder, or a
one-sided cone carrying `(axis offset, squared slope parameter, up flag)`. -/
inductive AxisSurf where
  | plane : ℚ → AxisSurf
  | cylinder : ℚ → AxisSurf
  | cone : ℚ → ℚ → Bool → AxisSurf
deriving DecidableEq, Repr

/-- Embeds lines 269-285: `x1 == x2` gives the plane at `x1`, else
`r1 == r2` gives the cylinder of radius `r1`, else the one-sided cone with
`grad = dx/dr`, `offset = x2 - grad*r2`, `angle = (-1/grad)^2` and
`up = (grad >= 0)`. -/
def buildAxisSurf (x1 r1 x2 r2 : ℚ) : AxisSurf :=
  if x1 = x2 then .plane x1
  else if r1 = r2 then .cylinder r1
  else
    let dr := r2 - r1
    let dx := x2 - x1
    let grad := dx / dr
    let offset := x2 - grad * r2
    let angle := (-1 / grad) ^ 2
    .cone offset angle (decide (0 ≤ grad))

/-- C8: a four-coefficient `x`/`y`/`z` record `(x1, r1, x2, r2)` produces the
axis-aligned plane at `x1` when `x1 = x2`, otherwise the axis-aligned
cylinder of radius `r1` when `r1 = r2`, and otherwise the one-sided cone
with apex offset `x2 - grad*r2`, squared-slope parameter `(1/grad)^2` and
up flag equal to the nonnegativity of `grad = (x2-x1)/(r2-r1)`. -/
theorem C8_axis_surface (x1 r1 x2 r2 : ℚ) :
    (x1 = x2 → buildAxisSurf x1 r1 x2 r2 = .plane x1) ∧
    (x1 ≠ x2 → r1 = r2 → buildAxisSurf x1 r1 x2 r2 = .cylinder r1) ∧
    (x1 ≠ x2 → r1 ≠ r2 →
      buildAxisSurf x1 r1 x2 r2 =
        .cone (x2 - ((x2 - x1) / (r2 - r1)) * r2)
          ((1 / ((x2 - x1) / (r2 - r1))) ^ 2)
          (decide (0 ≤ (x2 - x1) / (r2 - r1)))) := by
  refine ⟨fun h => by simp [buildAxisSurf, h], fun hx hr => ?_, fun hx hr => ?_⟩
  · simp [buildAxisSurf, hx, hr]
  · simp only [buildAxisSurf, if_neg hx, if_neg hr]
    have : (-1 / ((x2 - x1) / (r2 - r1))) ^ 2 = (1 / ((x2 - x1) / (r2 - r1))) ^ 2 := by
      ring
    rw [this]

/-- Witness for C8: the record `(0, 1, 2, 2)` is the general cone case. -/
theorem C8_axis_surface_witness :
    (0 : ℚ) ≠ 2 ∧ (1 : ℚ) ≠ 2 ∧
    buildAxisSurf 0 1 2 2 =
      .cone (2 - ((2 - 0) / (2 - 1)) * 2) ((1 / ((2 - 0) / (2 - 1))) ^ 2)
        (decide ((0 : ℚ) ≤ (2 - 0) / (2 - 1))) :=
  ⟨by norm_num, by norm_num,
    (C8_axis_surface 0 1 2 2).2.2 (by norm_num) (by norm_num)⟩

/-! ## Claim C9: universe ids are absolute values of the `u` tag -/

/-- Embeds `uid = abs(int(c['parameters']['u']))` — the id used both when
adding a non-lattice cell to its universe (line 595) and when creating the
lattice a cell defines (line 629). -/
def cellUniverseId (c : MCellRec) : Option Nat :=
  c.u.map Int.natAbs

/-- Embeds lines 442-447: collect `abs(int(u))` over all cells carrying a
`u` parameter and reserve `max + 1` as the next auto-generated universe id
(`None` when no cell has a universe tag, in which case the counter is left
untouched). -/
def universeNextId (cells : List MCellRec) : Option Nat :=
  match cells.filterMap (fun c => c.u.map Int.natAbs) with
  | [] => none
  | x :: xs => some (xs.foldl max x + 1)

/-- Embeds lines 770-778: the defining cell of a `fill` reference is the
first cell whose `abs(int(u))` equals the fill universe id (its `lat`
parameter then decides between `RectLattice` and `Universe`). -/
def fillDefiningCell (cells : List MCellRec) (uid : Nat) : Option MCellRec :=
  cells.find? (fun ci => match ci.u with
    | some t => t.natAbs == uid
    | none => false)

/-- Negate the universe tag of a cell record, leaving all else unchanged. -/
def negU (c : MCellRec) : MCellRec := { c with u := c.u.map (fun t => -t) }

theorem negU_uid (c : MCellRec) : (negU c).u.map Int.natAbs = c.u.map Int.natAbs := by
  cases h : c.u with
  | none => simp [negU, h]
  | some t => simp [negU, h, Int.natAbs_neg]

/-- C9: every universe id the converter uses — adding a cell to its
universe, creating the lattice it defines, resolving a fill reference to
it, and reserving the auto-generated universe-id counter — is the absolute
value of the `u` tag, so negating every universe tag changes nothing: the
per-cell id, the reserved counter, and the fill-defining-cell search (with
its `lat` discriminator) are all invariant. -/
theorem C9_universe_abs (c : MCellRec) (cells : List MCellRec) (uid : Nat) :
    cellUniverseId (negU c) = cellUniverseId c ∧
    universeNextId (cells.map negU) = universeNextId cells ∧
    fillDefiningCell (cells.map negU) uid = (fillDefiningCell cells uid).map negU ∧
    (fillDefiningCell (cells.map negU) uid).map (fun ci => ci.lat) =
      (fillDefiningCell cells uid).map (fun ci => ci.lat) := by
  have hfind : fillDefiningCell (cells.map negU) uid =
      (fillDefiningCell cells uid).map negU := by
    unfold fillDefiningCell
    induction cells with
    | nil => rfl
    | cons hd tl ih =>
      simp only [List.map_cons, List.find?_cons]
      have hpred : (match (negU hd).u with
          | some t => t.natAbs == uid
          | none => false) = (match hd.u with
          | some t => t.natAbs == uid
          | none => false) := by
        cases h : hd.u with
        | none => simp [negU, h]
        | some t => simp [negU, h, Int.natAbs_neg]
      rw [hpred]
      cases hm : (match hd.u with
          | some t => t.natAbs == uid
          | none => false) with
      | false => simpa using ih
      | true => simp
  refine ⟨negU_uid c, ?_, hfind, by rw [hfind]; cases fillDefiningCell cells uid <;> simp [negU]⟩
  unfold universeNextId
  have : (cells.map negU).filterMap (fun c2 => c2.u.map Int.natAbs) =
      cells.filterMap (fun c2 => c2.u.map Int.natAbs) := by
    rw [List.filterMap_map]
    refine List.filterMap_congr ?_
    intro c2 _
    exact negU_uid c2
  rw [this]

/-! ## Claim C10: the final complement-expansion pass -/

mutual

/-- Embeds `replace_complement` (lines 810-816) functionally: intersection
and union nodes are traversed, a complement node whose operand is a
halfspace has that operand replaced by the region of the constructed cell
whose id is the halfspace's surface id (`cells[region.node.surface.id]`),
and every other node is left untouched.  `cm` is the `openmc_cells` map
(lattice-defining cells are never entered into it, line 806); a missing id
is the uncaught Python `KeyError`.  The loop of lines 818-819 simply applies
this to each constructed cell's region. -/
def replaceComplement (cm : Nat → Option MRegion) : MRegion → Except ConvErr MRegion
  | .halfspace sid pos => .ok (.halfspace sid pos)
  | .inter l =>
    match replaceComplementList cm l with
    | .error e => .error e
    | .ok l2 => .ok (.inter l2)
  | .uni l =>
    match replaceComplementList cm l with
    | .error e => .error e
    | .ok l2 => .ok (.uni l2)
  | .compl (.halfspace sid _pos) =>
    match cm sid with
    | some r => .ok (.compl r)
    | none => .error .keyError
  | .compl (.inter l) => .ok (.compl (.inter l))
  | .compl (.uni l) => .ok (.compl (.uni l))
  | .compl (.compl n) => .ok (.compl (.compl n))

def replaceComplementList (cm : Nat → Option MRegion) :
    List MRegion → Except ConvErr (List MRegion)
  | [] => .ok []
  | r :: rest =>
    match replaceComplement cm r with
    | .error e => .error e
    | .ok r2 =>
      match replaceComplementList cm rest with
      | .error e => .error e
      | .ok l2 => .ok (r2 :: l2)

end

mutual

/-- Specification relation written from the claim's words: the output is
the input with every complement-of-halfspace node reached through
intersection and union nodes replaced by the mapped region of the cell the
halfspace's surface id names, and with nothing else changed (complements of
non-halfspace operands are not entered). -/
inductive ReplacedOK (cm : Nat → Option MRegion) : MRegion → MRegion → Prop where
  | hs (sid : Nat) (pos : Bool) :
      ReplacedOK cm (.halfspace sid pos) (.halfspace sid pos)
  | inter (l l2 : List MRegion) : ReplacedOKList cm l l2 →
      ReplacedOK cm (.inter l) (.inter l2)
  | uni (l l2 : List MRegion) : ReplacedOKList cm l l2 →
      ReplacedOK cm (.uni l) (.uni l2)
  | complHs (sid : Nat) (pos : Bool) (r : MRegion) : cm sid = some r →
      ReplacedOK cm (.compl (.halfspace sid pos)) (.compl r)
  | complOther (n : MRegion) : (∀ sid pos, n ≠ .halfspace sid pos) →
      ReplacedOK cm (.compl n) (.compl n)

inductive ReplacedOKList (cm : Nat → Option MRegion) :
    List MRegion → List MRegion → Prop where
  | nil : ReplacedOKList cm [] []
  | cons (r r2 : MRegion) (l l2 : List MRegion) : ReplacedOK cm r r2 →
      ReplacedOKList cm l l2 → ReplacedOKList cm (r :: l) (r2 :: l2)

end

mutual

/-- A region containing, reachable through intersection/union nodes only, a
complement of a halfspace whose surface id names no constructed cell. -/
inductive BadRef (cm : Nat → Option MRegion) : MRegion → Prop where
  | complHs (sid : Nat) (pos : Bool) : cm sid = none →
      BadRef cm (.compl (.halfspace sid pos))
  | inter (l : List MRegion) : BadRefList cm l → BadRef cm (.inter l)
  | uni (l : List MRegion) : BadRefList cm l → BadRef cm (.uni l)

inductive BadRefList (cm : Nat → Option MRegion) : List MRegion → Prop where
  | head (r : MRegion) (l : List MRegion) : BadRef cm r → BadRefList cm (r :: l)
  | tail (r : MRegion) (l : List MRegion) : BadRefList cm l → BadRefList cm (r :: l)

end

mutual

theorem replaceComplement_spec (cm : Nat → Option MRegion) :
    ∀ r : MRegion,
      (∃ r2, replaceComplement cm r = .ok r2 ∧ ReplacedOK cm r r2) ∨
      (replaceComplement cm r = .error .keyError ∧ BadRef cm r)
  | .halfspace sid pos => Or.inl ⟨_, rfl, .hs sid pos⟩
  | .inter l => by
    rcases replaceComplementList_spec cm l with ⟨l2, h, hok⟩ | ⟨h, hbad⟩
    · exact Or.inl ⟨.inter l2, by simp [replaceComplement, h], .inter l l2 hok⟩
    · exact Or.inr ⟨by simp [replaceComplement, h], .inter l hbad⟩
  | .uni l => by
    rcases replaceComplementList_spec cm l with ⟨l2, h, hok⟩ | ⟨h, hbad⟩
    · exact Or.inl ⟨.uni l2, by simp [replaceComplement, h], .uni l l2 hok⟩
    · exact Or.inr ⟨by simp [replaceComplement, h], .uni l hbad⟩
  | .compl (.halfspace sid pos) => by
    cases hcm : cm sid with
    | some r =>
      exact Or.inl ⟨.compl r, by simp [replaceComplement, hcm],
        .complHs sid pos r hcm⟩
    | none =>
      exact Or.inr ⟨by simp [replaceComplement, hcm], .complHs sid pos hcm⟩
  | .compl (.inter l) =>
    Or.inl ⟨_, rfl, .complOther _ (fun _ _ h => MRegion.noConfusion h)⟩
  | .compl (.uni l) =>
    Or.inl ⟨_, rfl, .complOther _ (fun _ _ h => MRegion.noConfusion h)⟩
  | .compl (.compl n) =>
    Or.inl ⟨_, rfl, .complOther _ (fun _ _ h => MRegion.noConfusion h)⟩

theorem replaceComplementList_spec (cm : Nat → Option MRegion) :
    ∀ l : List MRegion,
      (∃ l2, replaceComplementList cm l = .ok l2 ∧ ReplacedOKList cm l l2) ∨
      (replaceComplementList cm l = .error .keyError ∧ BadRefList cm l)
  | [] => Or.inl ⟨[], rfl, .nil⟩
  | r :: rest => by
    rcases replaceComplement_spec cm r with ⟨r2, h, hok⟩ | ⟨h, hbad⟩
    · rcases replaceComplementList_spec cm rest with ⟨l2, h2, hok2⟩ | ⟨h2, hbad2⟩
      · exact Or.inl ⟨r2 :: l2, by simp [replaceComplementList, h, h2],
          .cons r r2 rest l2 hok hok2⟩
      · exact Or.inr ⟨by simp [replaceComplementList, h, h2], .tail r rest hbad2⟩
    · exact Or.inr ⟨by simp [replaceComplementList, h], .head r rest hbad⟩

end

/-- C10: the final pass over each constructed cell's region traverses
intersection and union nodes, replaces every reached complement-of-halfspace
node by the region of the constructed (non-lattice) cell with the
halfspace's surface id, leaves everything else untouched, and aborts with an
uncaught `KeyError` exactly when such a reached node names a cell id absent
from the constructed-cell map. -/
theorem C10_replace_complement (cm : Nat → Option MRegion) (r : MRegion) :
    (∃ r2, replaceComplement cm r = .ok r2 ∧ ReplacedOK cm r r2) ∨
    (replaceComplement cm r = .error .keyError ∧ BadRef cm r) :=
  replaceComplement_spec cm r

/-! ## Claim C6: zero-importance cells and vacuum boundaries -/

inductive Boundary where
  | transmission
  | reflective
  | vacuum
deriving DecidableEq, Repr

/-- Embeds the `imp:n` zero test of lines 605 and 611:
`'imp:n' in c['parameters'] and f"{float(...):.5f}" == f"{0:.5f}"`, true
exactly for importances formatting to `0.00000`: nonnegative values below
5·10⁻⁶ (signed zero and ties at the fifth decimal follow binary-float
formatting; every input used here is far from those boundaries). -/
def impIsZero (c : MCellRec) : Bool :=
  match c.imp with
  | some q => decide (0 ≤ q ∧ q < 5 / 1000000)
  | none => false

def isHalfspaceR : MRegion → Bool
  | .halfspace _ _ => true
  | _ => false

/-- The surface ids of the halfspace members of a region's operand list, in
order (`n.surface` for `n in cell.region`). -/
def memberSurfIds : List MRegion → List Nat
  | [] => []
  | .halfspace sid _ :: rest => sid :: memberSurfIds rest
  | _ :: rest => memberSurfIds rest

/-- The mutable geometry state touched by lines 590-614: the surface table's
boundary conditions and the root universe's cell-id set. -/
structure GeomState where
  boundaries : List (Nat × Boundary)
  rootCells : List Nat
deriving Repr

/-- Embeds `n.surface.boundary_type = 'vacuum'` guarded by the transmission
test (lines 607-608, 612-613) for one surface. -/
def upgradeSurf (bs : List (Nat × Boundary)) (sid : Nat) : List (Nat × Boundary) :=
  match alget bs sid with
  | some .transmission => alset bs sid .vacuum
  | _ => bs

def upgradeSurfs (bs : List (Nat × Boundary)) : List Nat → List (Nat × Boundary)
  | [] => bs
  | sid :: rest => upgradeSurfs (upgradeSurf bs sid) rest

/-- Embeds lines 590-600: a cell without a `u` parameter is added to the
root universe (a cell with one goes to its own universe instead, which this
state does not track). -/
def addToUniverses (c : MCellRec) (st : GeomState) : GeomState :=
  match c.u with
  | some _ => st
  | none =>
    { st with rootCells :=
        if c.id ∈ st.rootCells then st.rootCells else st.rootCells ++ [c.id] }

/-- Embeds lines 590-614 for one cell with resolved region `region`: after
the universe bookkeeping, a region that is a `Union` whose members are all
halfspaces, or a single `Halfspace`, combined with a zero-testing `imp:n`,
upgrades the constituent transmission surfaces to vacuum and removes the
cell from the root universe; an `Intersection` region is not examined. -/
def boundaryPass (c : MCellRec) (region : MRegion) (st : GeomState) : GeomState :=
  let st1 := addToUniverses c st
  match region with
  | .uni l =>
    if l.all isHalfspaceR && impIsZero c then
      { boundaries := upgradeSurfs st1.boundaries (memberSurfIds l),
        rootCells := st1.rootCells.filter (fun x => x ≠ c.id) }
    else st1
  | .halfspace sid _ =>
    if impIsZero c then
      { boundaries := upgradeSurf st1.boundaries sid,
        rootCells := st1.rootCells.filter (fun x => x ≠ c.id) }
    else st1
  | _ => st1

theorem alget_alset {κ α : Type} [DecidableEq κ] (m : List (κ × α)) (k k2 : κ) (v : α) :
    alget (alset m k v) k2 = if k = k2 then some v else alget m k2 := by
  induction m with
  | nil =>
    by_cases h : k = k2 <;> simp [alset, alget, h]
  | cons hd tl ih =>
    obtain ⟨k3, v3⟩ := hd
    by_cases h3 : k3 = k
    · subst h3
      by_cases h : k3 = k2 <;> simp [alset, alget, h]
    · simp only [alset, if_neg h3]
      by_cases h : k3 = k2
      · subst h
        have : ¬(k = k3) := fun he => h3 he.symm
        simp [alget, this]
      · simp [alget, h, ih]

theorem upgradeSurf_char (bs : List (Nat × Boundary)) (s sid : Nat) :
    alget (upgradeSurf bs s) sid =
      if s = sid ∧ alget bs s = some .transmission then some .vacuum
      else alget bs sid := by
  unfold upgradeSurf
  cases hb : alget bs s with
  | none => simp [hb]
  | some b =>
    cases b with
    | transmission =>
      rw [alget_alset]
      by_cases h : s = sid
      · subst h
        simp [hb]
      · simp [h]
    | reflective => simp [hb]
    | vacuum => simp [hb]

theorem upgradeSurfs_char (sids : List Nat) :
    ∀ bs sid, alget (upgradeSurfs bs sids) sid =
      if sid ∈ sids ∧ alget bs sid = some .transmission then some .vacuum
      else alget bs sid := by
  induction sids with
  | nil => intro bs sid; simp [upgradeSurfs]
  | cons s rest ih =>
    intro bs sid
    simp only [upgradeSurfs]
    rw [ih]
    rw [upgradeSurf_char]
    by_cases hss : s = sid
    · subst hss
      by_cases htr : alget bs s = some .transmission
      · simp [htr]
      · by_cases hmem : s ∈ rest
        · simp [htr, hmem]
        · simp [htr, hmem]
    · have hne : ¬(sid = s) := fun he => hss he.symm
      by_cases hmem : sid ∈ rest
      · by_cases htr : alget bs sid = some .transmission
        · simp [hss, hmem, htr]
        · simp [hss, hmem, htr]
      · simp [hss, hmem, List.mem_cons, hne]

theorem addToUniverses_boundaries (c : MCellRec) (st : GeomState) :
    (addToUniverses c st).boundaries = st.boundaries := by
  unfold addToUniverses
  cases c.u <;> rfl

/-- C6 (amended): for a cell whose resolved region is a pure union of
halfspaces or a single halfspace and whose importance passes the code's
five-decimal zero test, every constituent surface currently at transmission
is upgraded to vacuum, every other surface keeps its boundary, and the cell
ends absent from the root universe's cell set; when the importance does not
test zero every surface's boundary is left unchanged.  A region that is an
intersection of halfspaces is not examined at all (the claim's inclusion of
intersections fails, see the counterexample). -/
theorem C6_vacuum_boundary (c : MCellRec) (st : GeomState) :
    (∀ l, impIsZero c = true → (∀ r ∈ l, isHalfspaceR r = true) →
      (∀ sid, alget (boundaryPass c (.uni l) st).boundaries sid =
        (if sid ∈ memberSurfIds l ∧ alget st.boundaries sid = some .transmission
         then some .vacuum else alget st.boundaries sid)) ∧
      c.id ∉ (boundaryPass c (.uni l) st).rootCells) ∧
    (∀ sid pos, impIsZero c = true →
      (∀ sid2, alget (boundaryPass c (.halfspace sid pos) st).boundaries sid2 =
        (if sid = sid2 ∧ alget st.boundaries sid = some .transmission
         then some .vacuum else alget st.boundaries sid2)) ∧
      c.id ∉ (boundaryPass c (.halfspace sid pos) st).rootCells) ∧
    (∀ region, impIsZero c = false →
      (boundaryPass c region st).boundaries = st.boundaries) := by
  refine ⟨?_, ?_, ?_⟩
  · intro l hz hall
    have hcond : (l.all isHalfspaceR && impIsZero c) = true := by
      rw [hz, List.all_eq_true.mpr hall]
      rfl
    have hbp : boundaryPass c (.uni l) st =
        { boundaries := upgradeSurfs (addToUniverses c st).boundaries (memberSurfIds l),
          rootCells := (addToUniverses c st).rootCells.filter (fun x => x ≠ c.id) } := by
      simp [boundaryPass, hcond]
    constructor
    · intro sid
      rw [hbp]
      show alget (upgradeSurfs (addToUniverses c st).boundaries (memberSurfIds l)) sid = _
      rw [addToUniverses_boundaries, upgradeSurfs_char]
    · rw [hbp]
      simp [List.mem_filter]
  · intro sid pos hz
    have hbp : boundaryPass c (.halfspace sid pos) st =
        { boundaries := upgradeSurf (addToUniverses c st).boundaries sid,
          rootCells := (addToUniverses c st).rootCells.filter (fun x => x ≠ c.id) } := by
      simp [boundaryPass, hz]
    constructor
    · intro sid2
      rw [hbp]
      show alget (upgradeSurf (addToUniverses c st).boundaries sid) sid2 = _
      rw [addToUniverses_boundaries, upgradeSurf_char]
    · rw [hbp]
      simp [List.mem_filter]
  · intro region hz
    cases region with
    | halfspace sid pos => simp [boundaryPass, hz, addToUniverses_boundaries]
    | inter l => simp [boundaryPass, addToUniverses_boundaries]
    | uni l => simp [boundaryPass, hz, addToUniverses_boundaries]
    | compl n => simp [boundaryPass, addToUniverses_boundaries]

/-- Zero-importance cell whose region is a single halfspace `+5`. -/
def cellHsZero : MCellRec := { id := 9, region := .hs 5 true, imp := some 0 }

def st5 : GeomState := { boundaries := [(5, .transmission)], rootCells := [] }

/-- Witness for C6: the zero-importance cell with region `+5` turns surface
5 to vacuum and is absent from the root universe. -/
theorem C6_vacuum_boundary_witness :
    impIsZero cellHsZero = true ∧
    alget (boundaryPass cellHsZero (.halfspace 5 true) st5).boundaries 5 =
      some Boundary.vacuum ∧
    9 ∉ (boundaryPass cellHsZero (.halfspace 5 true) st5).rootCells := by
  have hz : impIsZero cellHsZero = true := by
    have he : impIsZero cellHsZero = decide ((0 : ℚ) ≤ 0 ∧ (0 : ℚ) < 5 / 1000000) := rfl
    rw [he, decide_eq_true_eq]
    norm_num
  obtain ⟨h1, h2⟩ := (C6_vacuum_boundary cellHsZero st5).2.1 5 true hz
  refine ⟨hz, ?_, h2⟩
  rw [h1 5]
  simp [st5, alget]

/-- Zero-importance cell whose region is the pure intersection `-1 -2`. -/
def cellInterZero : MCellRec :=
  { id := 7, region := .inter [.hs 1 false, .hs 2 false], imp := some 0 }

def st12 : GeomState :=
  { boundaries := [(1, .transmission), (2, .transmission)], rootCells := [] }

/-- C6 counterexample: a zero-importance cell whose region is a pure
intersection of two transmission halfspaces is left entirely alone — both
surfaces keep their transmission boundary and the cell stays in the root
universe — contradicting the claim's inclusion of pure intersections. -/
theorem C6_counterexample :
    impIsZero cellInterZero = true ∧
    (boundaryPass cellInterZero (.inter [.halfspace 1 false, .halfspace 2 false])
      st12).boundaries = [(1, Boundary.transmission), (2, Boundary.transmission)] ∧
    7 ∈ (boundaryPass cellInterZero (.inter [.halfspace 1 false, .halfspace 2 false])
      st12).rootCells := by
  refine ⟨?_, rfl, by decide⟩
  have he : impIsZero cellInterZero = decide ((0 : ℚ) ≤ 0 ∧ (0 : ℚ) < 5 / 1000000) := rfl
  rw [he, decide_eq_true_eq]
  norm_num

/-! ## Claim C7: the surface-equivalence closure of `compare_surfaces`

The raw identity map comes from `surfaces_comparison.compare`, a module of
this repository that is not under `src/`; per the spec it is an
insertion-ordered mapping from a surface id to a signed id found identical
to it, possibly containing chains.  Only the closure loop of lines 382-389
is source code here and it is embedded exactly; the raw map is universally
quantified. -/

/-- Python `v/abs(v)` followed by the `int` cast, for nonzero `v`. -/
def isign (v : Int) : Int := if v < 0 then -1 else 1

def alvalues {κ α : Type} (m : List (κ × α)) : List α := m.map (fun p => p.2)

/-- One iteration of the closure loop (lines 383-388) on raw entry `(k, v)`:
store `sign(v) · get(|v|, default |v|)` under `k`, then, when `±k` already
occurs among the stored values, re-point every entry whose value has
magnitude `|k|` at `sign(value) · v` — note: at the raw `v`, not at the
value just composed for `k`. -/
def closeStep (m : List (Int × Int)) (kv : Int × Int) : List (Int × Int) :=
  let k := kv.1
  let v := kv.2
  let m1 := alset m k (isign v * ((alget m |v|).getD |v|))
  if k ∈ alvalues m1 ∨ -k ∈ alvalues m1 then
    m1.map (fun p => if |p.2| = |k| then (p.1, isign p.2 * v) else p)
  else m1

/-- Embeds the whole closure loop of `compare_surfaces` (lines 382-389). -/
def closeIdentical (temp : List (Int × Int)) : List (Int × Int) :=
  temp.foldl closeStep []

/-- The claim's invariant, written from the spec: whenever the produced map
sends `a` to the signed id `b` and sends `|b|` to `c`, the value stored for
`a` already is the sign-composed `sign(b)·c` — no participating surface is
left at a non-canonical id. -/
def TransClosed (m : List (Int × Int)) : Prop :=
  ∀ a b c2, alget m a = some b → alget m |b| = some c2 → b = isign b * c2

theorem alget_mem {κ α : Type} [DecidableEq κ] (m : List (κ × α)) (k : κ) (v : α)
    (h : alget m k = some v) : (k, v) ∈ m := by
  induction m with
  | nil => simp [alget] at h
  | cons hd tl ih =>
    obtain ⟨k2, v2⟩ := hd
    by_cases hk : k2 = k
    · subst hk
      simp [alget] at h
      subst h
      exact List.mem_cons_self _ _
    · simp only [alget, if_neg hk] at h
      exact List.mem_cons_of_mem _ (ih h)

/-- A map none of whose values point back into its keys is transitively
closed for trivial reasons. -/
theorem transClosed_of_no_chain (m : List (Int × Int))
    (h : ∀ p ∈ m, alget m |p.2| = none) : TransClosed m := by
  intro a0 b0 c0 h1 h2
  have hmem : (a0, b0) ∈ m := alget_mem m a0 b0 h1
  rw [h (a0, b0) hmem] at h2
  cases h2

/-- C7 counterexample: for the raw identity map `{2 ≡ 3, 5 ≡ 1, 1 ≡ 2}`
(in that insertion order) the closure loop outputs `{2 ↦ 3, 5 ↦ 2, 1 ↦ 3}`:
it relates 5 to 2 and 2 to 3, yet leaves 5 at the non-canonical id 2 — the
back-patch of the third iteration used the raw target 2 instead of the
composed canonical 3, so the output is not transitively closed. -/
theorem C7_counterexample :
    closeIdentical [(2, 3), (5, 1), (1, 2)] = [(2, 3), (5, 2), (1, 3)] ∧
    ¬ TransClosed (closeIdentical [(2, 3), (5, 1), (1, 2)]) := by
  refine ⟨by decide, fun h => ?_⟩
  have h5 := h 5 2 3 (by decide) (by decide)
  exact absurd h5 (by decide)

/-- C7 (amended): the closure loop composes signs correctly across a
two-link chain in either insertion order — for the raw map
`{1 ≡ s1·2, 2 ≡ s2·3}` (any signs, either order) surface 1 ends at the
canonical `s1·s2·3` and the output is transitively closed — but with a third
entry pointing at a chain head (the counterexample's `{2≡3, 5≡1, 1≡2}`) the
back-patch step uses the raw, uncomposed target and leaves a surface mapped
to a non-canonical id. -/
theorem C7_two_link_closure (s1 s2 : Int)
    (hs1 : s1 = 1 ∨ s1 = -1) (hs2 : s2 = 1 ∨ s2 = -1) :
    closeIdentical [(1, s1 * 2), (2, s2 * 3)] =
      [(1, s1 * (s2 * 3)), (2, s2 * 3)] ∧
    closeIdentical [(2, s2 * 3), (1, s1 * 2)] =
      [(2, s2 * 3), (1, s1 * (s2 * 3))] ∧
    TransClosed (closeIdentical [(1, s1 * 2), (2, s2 * 3)]) ∧
    TransClosed (closeIdentical [(2, s2 * 3), (1, s1 * 2)]) := by
  rcases hs1 with rfl | rfl <;> rcases hs2 with rfl | rfl <;>
    exact ⟨by decide, by decide,
      transClosed_of_no_chain _ (by decide),
      transClosed_of_no_chain _ (by decide)⟩

/-- Witness for C7's amended theorem: both links negative, chain
`1 ≡ -2, 2 ≡ -3` composes to `1 ↦ 3`. -/
theorem C7_two_link_closure_witness :
    ((-1 : Int) = 1 ∨ (-1 : Int) = -1) ∧
    closeIdentical [(1, (-1 : Int) * 2), (2, (-1 : Int) * 3)] =
      [(1, (-1 : Int) * ((-1) * 3)), (2, (-1 : Int) * 3)] :=
  ⟨Or.inr rfl, (C7_two_link_closure (-1) (-1) (Or.inr rfl) (Or.inr rfl)).1⟩

/-! ## Claim C3: lattice pitch, axis flips and stored order

The lattice constructor works per axis on the two bounding-plane offsets in
listing order: `v1` holds the first-listed offsets and `v0` the second
(lines 651-654).  The per-axis computations are embedded over exact
rationals. -/

/-- Per-axis pitch (line 656): `abs(v1 - v0)`. -/
def pitchAxis (f s : ℚ) : ℚ := |f - s|

/-- Per-axis flip test (lines 711-719): the universe-id array is reversed
along an axis exactly when `(v1 - v0)` is negative there. -/
def flipAxis (f s : ℚ) : Bool := decide (f - s < 0)

/-- Per-axis lower-left corner (lines 688-699 specialised to one axis): the
minimum of `corner0 = v0 + index0*(v1-v0)` and `corner1 = v1 + index1*(v1-v0)`. -/
def lowerLeftAxis (f s : ℚ) (kmin kmax : Int) : ℚ :=
  min (s + kmin * (f - s)) (f + kmax * (f - s))

/-- Geometric placement of MCNP lattice element `k` along one axis, from
the convention recorded in the source comment (lines 648-650): element 0 is
the defining cell between the two planes and element +1 lies across the
first listed plane, so element `k`'s lower edge sits at
`min f s + k * (f - s)`. -/
def elementLeftAxis (f s : ℚ) (k : Int) : ℚ := min f s + k * (f - s)

/-- The raw fill position selected for stored slot `i` along one axis of
`n` slots, after the conditional `np.flip`. -/
def storedFillIndex (f s : ℚ) (n i : Nat) : Nat :=
  if flipAxis f s then n - 1 - i else i

/-- One-axis specialisation of the stored universe-id array: the raw fill
entries, reversed when the axis flips (lines 706-719). -/
def storedEntriesAxis (f s : ℚ) (entries : List Int) : List Int :=
  if flipAxis f s then entries.reverse else entries

/-- C3 (amended): the per-axis pitch is the absolute difference of the two
bounding-plane offsets, and after the conditional flip the stored array
matches increasing-coordinate order: the fill entry stored at slot `i` is
the one for the lattice element whose geometric lower edge is
`lower_left + i * pitch`.  (The claim's example gloss fails: stored index 0
is the lowest-coordinate element, not the element nearest x = 0 — see the
counterexample.) -/
theorem C3_lattice_pitch_flip (f s : ℚ) (kmin kmax : Int) (n i : Nat)
    (entries : List Int) (hfs : f ≠ s) (hk : kmin ≤ kmax)
    (hn : (n : Int) = kmax - kmin + 1) (hi : i < n) (hlen : entries.length = n) :
    pitchAxis f s = |f - s| ∧
    elementLeftAxis f s (kmin + (storedFillIndex f s n i : Int)) =
      lowerLeftAxis f s kmin kmax + (i : ℚ) * pitchAxis f s ∧
    (storedEntriesAxis f s entries).getD i 0 =
      entries.getD (storedFillIndex f s n i) 0 := by
  refine ⟨rfl, ?_, ?_⟩
  · rcases lt_or_gt_of_ne hfs with hlt | hgt
    · -- first plane on the smaller side: flip
      have hneg : f - s < 0 := by linarith
      have hflip : flipAxis f s = true := by
        rw [flipAxis, decide_eq_true_eq]
        exact hneg
      have hidx : storedFillIndex f s n i = n - 1 - i := by
        rw [storedFillIndex, if_pos hflip]
      have hmin : min f s = f := min_eq_left (le_of_lt hlt)
      have hll : lowerLeftAxis f s kmin kmax = f + kmax * (f - s) := by
        rw [lowerLeftAxis]
        refine min_eq_right ?_
        have h1 : (kmax : ℚ) * (f - s) ≤ (kmin : ℚ) * (f - s) := by
          apply mul_le_mul_of_nonpos_right _ (le_of_lt hneg)
          exact_mod_cast hk
        linarith
      have hp : pitchAxis f s = -(f - s) := abs_of_neg hneg
      have hcast : (kmin + ((n - 1 - i : Nat) : Int)) = kmax - (i : Int) := by
        omega
      rw [elementLeftAxis, hidx, hcast, hmin, hll, hp]
      push_cast
      ring
    · -- first plane on the larger side: no flip
      have hpos : 0 < f - s := by linarith
      have hflip : flipAxis f s = false := by
        rw [flipAxis, decide_eq_false_iff_not]
        linarith
      have hidx : storedFillIndex f s n i = i := by
        rw [storedFillIndex, if_neg (by rw [hflip]; exact Bool.false_ne_true)]
      have hmin : min f s = s := min_eq_right (le_of_lt hgt)
      have hll : lowerLeftAxis f s kmin kmax = s + kmin * (f - s) := by
        rw [lowerLeftAxis]
        refine min_eq_left ?_
        have h1 : (kmin : ℚ) * (f - s) ≤ (kmax : ℚ) * (f - s) := by
          apply mul_le_mul_of_nonneg_right _ (le_of_lt hpos)
          exact_mod_cast hk
        linarith
      have hp : pitchAxis f s = f - s := abs_of_pos hpos
      rw [elementLeftAxis, hidx, hmin, hll, hp]
      push_cast
      ring
  · by_cases hflip : flipAxis f s = true
    · have hrl : (entries.reverse).length = n := by simp [hlen]
      have hstored : storedEntriesAxis f s entries = entries.reverse := by
        rw [storedEntriesAxis, if_pos hflip]
      have hidx : storedFillIndex f s n i = n - 1 - i := by
        rw [storedFillIndex, if_pos hflip]
      have hib : i < entries.reverse.length := by rw [hrl]; exact hi
      have hib2 : n - 1 - i < entries.length := by rw [hlen]; omega
      rw [hstored, hidx, List.getD_eq_getElem _ _ hib,
        List.getD_eq_getElem _ _ hib2, List.getElem_reverse]
      congr 1
      omega
    · have hstored : storedEntriesAxis f s entries = entries := by
        rw [storedEntriesAxis, if_neg hflip]
      have hidx : storedFillIndex f s n i = i := by
        rw [storedFillIndex, if_neg hflip]
      rw [hstored, hidx]

/-- Witness for C3: planes at x = 0 then x = 10, fill window 0:2 with
entries [101, 102, 103]: stored slot 0 holds entry 103 (raw index 2), whose
element starts at the lower-left corner x = -20. -/
theorem C3_lattice_pitch_flip_witness :
    ((0 : ℚ) ≠ 10 ∧ (0 : Int) ≤ 2 ∧ ((3 : Nat) : Int) = 2 - 0 + 1 ∧ 0 < 3 ∧
      ([101, 102, 103] : List Int).length = 3) ∧
    (pitchAxis 0 10 = |(0 : ℚ) - 10| ∧
      elementLeftAxis 0 10 (0 + (storedFillIndex 0 10 3 0 : Int)) =
        lowerLeftAxis 0 10 0 2 + ((0 : Nat) : ℚ) * pitchAxis 0 10 ∧
      (storedEntriesAxis 0 10 [101, 102, 103]).getD 0 0 =
        ([101, 102, 103] : List Int).getD (storedFillIndex 0 10 3 0) 0) :=
  ⟨⟨by norm_num, by norm_num, by norm_num, by norm_num, by norm_num⟩,
    C3_lattice_pitch_flip 0 10 0 2 3 0 [101, 102, 103]
      (by norm_num) (by norm_num) (by norm_num) (by norm_num) (by norm_num)⟩

/-- C3 counterexample: with bounding planes at x = 0 and x = 10 listed in
that order and fill range 0:2, the flip stores the entries as
[103, 102, 101] with lower-left corner x = -20 and pitch 10, so stored
index 0 covers x ∈ [-20, -10]: its centre lies 15 from x = 0 while stored
index 1's centre lies only 5 away — index 0 is the lowest-coordinate
element, not "the region nearest x = 0" as the claim's example states. -/
theorem C3_counterexample :
    storedEntriesAxis 0 10 [101, 102, 103] = [103, 102, 101] ∧
    lowerLeftAxis 0 10 0 2 = -20 ∧
    pitchAxis 0 10 = 10 ∧
    ¬ (|lowerLeftAxis 0 10 0 2 + (0 : ℚ) * pitchAxis 0 10 + pitchAxis 0 10 / 2| ≤
       |lowerLeftAxis 0 10 0 2 + (1 : ℚ) * pitchAxis 0 10 + pitchAxis 0 10 / 2|) := by
  have hflip : flipAxis 0 10 = true := by
    rw [flipAxis, decide_eq_true_eq]
    norm_num
  have hll : lowerLeftAxis 0 10 0 2 = -20 := by
    rw [lowerLeftAxis]
    norm_num
  have hp : pitchAxis 0 10 = 10 := by
    rw [pitchAxis]
    norm_num [abs_of_neg]
  refine ⟨by rw [storedEntriesAxis, if_pos hflip]; rfl, hll, hp, ?_⟩
  rw [hll, hp]
  norm_num

/-! ## Claim C4: self-filling lattices and the auxiliary universe

The whole lattice branch of `get_openmc_universes` (lines 622-758), followed
by the `'vol' in c["parameters"]` lookup of line 803, is embedded as a
function from the extracted cell data to an outcome record.  Creating the
auxiliary cell (line 725) and the translated-universe cells (line 740)
rebinds the Python loop variable `c` to an `openmc.Cell`; line 803 then
subscripts that object, which raises an uncaught `TypeError`.  For a lattice
with nonzero unit-cell centre the outcome's `univIds` reflects the state as
of line 731 (before the translated-universe substitution of lines 738-746);
every such run ends in the `TypeError` and no property below inspects
`univIds` in that case. -/

/-- Surface kinds distinguished by the side-collection loop (lines 637-644),
after `reduce_general_plane_to_xyz` has normalised axis-aligned planes. -/
inductive SurfKind where
  | xplane : ℚ → SurfKind
  | yplane : ℚ → SurfKind
  | zplane : ℚ → SurfKind
  | other : SurfKind
deriving Repr

/-- Embeds lines 637-644: walk the region's member halfspaces in order and
record the offsets of the X/Y/Z planes per axis. -/
def collectSides (table : Nat → SurfKind) : List Nat → List ℚ × List ℚ × List ℚ
  | [] => ([], [], [])
  | sid :: rest =>
    let (xs, ys, zs) := collectSides table rest
    match table sid with
    | .xplane q => (q :: xs, ys, zs)
    | .yplane q => (xs, q :: ys, zs)
    | .zplane q => (xs, ys, q :: zs)
    | .other => (xs, ys, zs)

/-- Parsed `fill` parameter of a lattice cell (lines 663-686): a single
universe id (infinite lattice) or a `min:max` window per axis with the flat
universe-id list. -/
inductive FillSpec where
  | infinite : Int → FillSpec
  | window : Int → Int → Int → Int → Int → Int → List Int → FillSpec
deriving Repr

/-- Embeds lines 666-686: infinite lattices collapse the window to zeros,
finite ones carry their parsed window; `assert max >= min` per axis. -/
def fillBounds : FillSpec → Except ConvErr (Int × Int × Int × Int × Int × Int × List Int)
  | .infinite u => .ok (0, 0, 0, 0, 0, 0, [u])
  | .window x0 x1 y0 y1 z0 z1 es =>
    if x1 ≥ x0 ∧ y1 ≥ y0 ∧ z1 ≥ z0 then .ok (x0, x1, y0, y1, z0, z1, es)
    else .error .assertFail

/-- Centre of the unit cell along one axis (line 736): `(v0 + v1) / 2`. -/
def centerAxis (f s : ℚ) : ℚ := (s + f) / 2

/-- Split a flat list into rows of `nx` entries (the row-major layout
`np.reshape` gives the universe-id array). -/
def chunkList (nx : Nat) : List Int → List (List Int)
  | [] => []
  | x :: xs =>
    if h : nx = 0 then []
    else (x :: xs).take nx :: chunkList nx ((x :: xs).drop nx)
termination_by l => l.length
decreasing_by
  simp only [List.length_drop, List.length_cons]
  omega

/-- Embeds the conditional `np.flip` calls (lines 709-716) on the flat
`(y, x)`-ordered array of a 2D lattice. -/
def flipStored2D (fx fy : Bool) (nx : Nat) (l : List Int) : List Int :=
  let rows := chunkList nx l
  let rows2 := rows.map (fun r => if fx then r.reverse else r)
  (if fy then rows2.reverse else rows2).flatten

/-- Embeds lines 709-719 on the flat `(z, y, x)`-ordered array of a 3D
lattice. -/
def flipStored3D (fx fy fz : Bool) (nx ny : Nat) (l : List Int) : List Int :=
  let planes := chunkList (ny * nx) l
  let planes2 := planes.map (flipStored2D fx fy nx)
  (if fz then planes2.reverse else planes2).flatten

/-- Embeds `univ_ids[univ_ids == uid] = u.id` (line 727). -/
def substUid (entries : List Int) (uid fresh : Nat) : List Int :=
  entries.map (fun x => if x = (uid : Int) then (fresh : Int) else x)

/-- The extracted inputs of the lattice branch for one lattice-defining
cell: the `lat` tag, `uid = abs(int(u))`, material id, the region's member
surface ids in order, the parsed fill, and the auto-universe-id counter that
a fresh `openmc.Universe()` would take (set on line 447). -/
structure LatCellInput where
  cellId : Nat
  latType : Int
  uid : Nat
  material : Int
  regionSids : List Nat
  fill : FillSpec
  nextUniverse : Nat

/-- Observable outcome of the lattice branch: the stored flat universe-id
array (after flips and the self-fill substitution), whether the auxiliary
universe was created, whether translated universes were needed, and the
error the surrounding loop iteration ends with, if any. -/
structure LatOutcome where
  univIds : List Int := []
  pitch : List ℚ := []
  lowerLeft : List ℚ := []
  auxUsed : Bool := false
  translated : Bool := false
  err : Option ConvErr := none
deriving Repr

/-- Body of the lattice branch for a 2D lattice (no z-planes among the
bounding surfaces), lines 663-758 plus the line-803 lookup. -/
def latticeBody2D (inp : LatCellInput) (fx sx fy sy : ℚ) : LatOutcome :=
  match fillBounds inp.fill with
  | .error e => { err := some e }
  | .ok (x0, x1, y0, y1, _z0, _z1, entries) =>
    let nx := (x1 - x0 + 1).toNat
    let ny := (y1 - y0 + 1).toNat
    if entries.length ≠ ny * nx then { err := some .valueError }
    else
      let stored := flipStored2D (flipAxis fx sx) (flipAxis fy sy) nx entries
      let auxUsed := decide ((inp.uid : Int) ∈ stored)
      let withAux :=
        if (inp.uid : Int) ∈ stored then substUid stored inp.uid inp.nextUniverse
        else stored
      let translated := decide (¬(centerAxis fx sx = 0 ∧ centerAxis fy sy = 0))
      { univIds := withAux,
        pitch := [pitchAxis fx sx, pitchAxis fy sy],
        lowerLeft := [lowerLeftAxis fx sx x0 x1, lowerLeftAxis fy sy y0 y1],
        auxUsed := auxUsed,
        translated := translated,
        err := if auxUsed || translated then some .typeError else none }

/-- Body of the lattice branch for a 3D lattice. -/
def latticeBody3D (inp : LatCellInput) (fx sx fy sy fz sz : ℚ) : LatOutcome :=
  match fillBounds inp.fill with
  | .error e => { err := some e }
  | .ok (x0, x1, y0, y1, z0, z1, entries) =>
    let nx := (x1 - x0 + 1).toNat
    let ny := (y1 - y0 + 1).toNat
    let nz := (z1 - z0 + 1).toNat
    if entries.length ≠ nz * (ny * nx) then { err := some .valueError }
    else
      let stored := flipStored3D (flipAxis fx sx) (flipAxis fy sy) (flipAxis fz sz)
        nx ny entries
      let auxUsed := decide ((inp.uid : Int) ∈ stored)
      let withAux :=
        if (inp.uid : Int) ∈ stored then substUid stored inp.uid inp.nextUniverse
        else stored
      let translated := decide (¬(centerAxis fx sx = 0 ∧ centerAxis fy sy = 0 ∧
        centerAxis fz sz = 0))
      { univIds := withAux,
        pitch := [pitchAxis fx sx, pitchAxis fy sy, pitchAxis fz sz],
        lowerLeft := [lowerLeftAxis fx sx x0 x1, lowerLeftAxis fy sy y0 y1,
          lowerLeftAxis fz sz z0 z1],
        auxUsed := auxUsed,
        translated := translated,
        err := if auxUsed || translated then some .typeError else none }

/-- The lattice branch of `get_openmc_universes` (lines 622-758 and the
`vol` lookup of line 803) for one lattice-defining cell. -/
def latticeBranch (table : Nat → SurfKind) (inp : LatCellInput) : LatOutcome :=
  if inp.latType = 2 then { err := some .notImplemented }
  else if inp.regionSids.length < 4 then { err := some .notImplemented }
  else
    match collectSides table inp.regionSids with
    | (xs, ys, zs) =>
      if xs = [] ∨ ys = [] then { err := some .notImplemented }
      else
        match xs, ys, zs with
        | [fx, sx], [fy, sy], [] => latticeBody2D inp fx sx fy sy
        | [fx, sx], [fy, sy], [fz, sz] => latticeBody3D inp fx sx fy sy fz sz
        | _, _, _ => { err := some .valueError }

/-- Surface table of the C4 scenario: x-planes 1, 2 at ±5 and y-planes 3, 4
at ±5 (unit-cell centre at the origin). -/
def latTable : Nat → SurfKind := fun sid =>
  if sid = 1 then .xplane 5
  else if sid = 2 then .xplane (-5)
  else if sid = 3 then .yplane 5
  else if sid = 4 then .yplane (-5)
  else .other

/-- C4 scenario: lattice cell 5 with universe tag 1 whose infinite fill is
its own universe id 1; the auto-universe counter stands at 2. -/
def latSelfInput : LatCellInput :=
  { cellId := 5, latType := 1, uid := 1, material := 1,
    regionSids := [1, 2, 3, 4], fill := .infinite 1, nextUniverse := 2 }

/-- C4: substituting the fresh auxiliary universe id for the defining cell's
own id leaves no occurrence of that id in the array (first conjunct, the
invariant of lines 721-731), and on the concrete self-filling lattice the
code does build the array `[2]` free of the defining id 1 with the auxiliary
universe created — but the loop iteration then dies with an uncaught
`TypeError`, because line 725 rebound `c` to the auxiliary `openmc.Cell`
and line 803 subscripts it. -/
theorem C4_self_fill_lattice :
    (∀ (entries : List Int) (uid fresh : Nat), (uid : Int) ≠ (fresh : Int) →
      (uid : Int) ∉ substUid entries uid fresh) ∧
    (latticeBranch latTable latSelfInput).univIds = [2] ∧
    ((latSelfInput.uid : Int) ∉ (latticeBranch latTable latSelfInput).univIds) ∧
    (latticeBranch latTable latSelfInput).auxUsed = true ∧
    (latticeBranch latTable latSelfInput).err = some ConvErr.typeError := by
  have hsub : ∀ (entries : List Int) (uid fresh : Nat), (uid : Int) ≠ (fresh : Int) →
      (uid : Int) ∉ substUid entries uid fresh := by
    intro entries uid fresh hne hmem
    rw [substUid, List.mem_map] at hmem
    obtain ⟨y, _, heq⟩ := hmem
    by_cases hy : y = (uid : Int)
    · rw [if_pos hy] at heq
      exact hne heq.symm
    · rw [if_neg hy] at heq
      exact hy heq
  have hfx : flipAxis 5 (-5) = false := by
    rw [flipAxis, decide_eq_false_iff_not]
    norm_num
  have hcx : centerAxis 5 (-5) = 0 := by
    rw [centerAxis]
    norm_num
  have hbody : latticeBranch latTable latSelfInput =
      latticeBody2D latSelfInput 5 (-5) 5 (-5) := rfl
  have hmain : (latticeBranch latTable latSelfInput).univIds = [2] ∧
      (latticeBranch latTable latSelfInput).auxUsed = true ∧
      (latticeBranch latTable latSelfInput).translated = false ∧
      (latticeBranch latTable latSelfInput).err = some ConvErr.typeError := by
    rw [hbody]
    simp only [latticeBody2D, fillBounds, latSelfInput, hfx, hcx]
    norm_num [flipStored2D, chunkList, substUid]
  refine ⟨hsub, hmain.1, ?_, hmain.2.1, hmain.2.2.2⟩
  rw [hmain.1]
  simp [latSelfInput]

/-- Witness for C4's universally quantified conjunct: with fresh id 2 the
substituted array `[2, 5]` no longer contains the defining id 1. -/
theorem C4_self_fill_lattice_witness :
    ((1 : Nat) : Int) ≠ ((2 : Nat) : Int) ∧
    ((1 : Nat) : Int) ∉ substUid [1, 5] 1 2 :=
  ⟨by norm_num, C4_self_fill_lattice.1 [1, 5] 1 2 (by norm_num)⟩

end McnpAdapter
